import Mathlib

/-!
Verification development for the YT-Playlists_Downloader repository.

The definitions below are a shallow embedding of the TypeScript sources:

* `src/utils/validator.ts` (sanitizeFilename, isValidYouTubeUrl,
  extractPlaylistId): pure string functions, embedded over `List Char`.
* `src/services/youtube/fetcher.ts` (validateAndExtractId).
* `src/services/downloader` retry variant (downloadSong, downloadSongs,
  NETWORK_ERROR_PATTERNS, isNetworkError, waitForReconnect): the effectful
  pipeline is embedded by passing the outcomes of the external effects
  explicitly (a `JobEnv` gives each fetch attempt's outcome and the
  transcode outcome; connectivity probes are given as a `List Bool`), and
  each run produces an explicit event trace.
-/

namespace YTPD

/-! ## Data model (src/types/index.ts) -/

/-- Structure `Song` from src/types/index.ts. -/
structure Song where
  id : String
  title : String
  artist : String
  duration : Nat
  coverUrl : Option String := none
  downloadUrl : Option String := none
deriving DecidableEq, Repr

/-- The `status` field of `DownloadProgress` from src/types/index.ts. -/
inductive DStatus where
  | pending
  | downloading
  | converting
  | completed
  | failed
deriving DecidableEq, Repr

/-- Structure `DownloadProgress` from src/types/index.ts. -/
structure DownloadProgress where
  songId : String
  title : String
  status : DStatus
  progress : Nat
  error : Option String := none
deriving DecidableEq, Repr

/-- Structure `DownloadResult` of the downloader module (song, filePath, success, error). -/
structure DownloadResult where
  song : Song
  filePath : String
  success : Bool
  error : Option String := none
deriving DecidableEq, Repr

/-! ## Validator utilities (src/utils/validator.ts) -/

/-- The characters removed by `sanitizeFilename`'s first replace:
the regex character class of /[\/\\?%*:|"<>]/g. -/
def illegalChars : List Char := ['/', '\\', '?', '%', '*', ':', '|', '"', '<', '>']

/-- Membership in the removed character class. -/
def isIllegalChar (c : Char) : Bool := illegalChars.contains c

/-- The JavaScript regex whitespace class \s (as matched by /\s+/g). -/
def isJsSpace (c : Char) : Bool :=
  c.val == 9 || c.val == 10 || c.val == 11 || c.val == 12 || c.val == 13 ||
  c.val == 32 || c.val == 0xa0 || c.val == 0x1680 ||
  (0x2000 ≤ c.val && c.val ≤ 0x200a) ||
  c.val == 0x2028 || c.val == 0x2029 || c.val == 0x202f || c.val == 0x205f ||
  c.val == 0x3000 || c.val == 0xfeff

/-- The step `.replace(/\s+/g, ' ')`: every maximal run of whitespace characters is
replaced by a single space. The boolean argument records whether the
previous character belonged to a whitespace run. -/
def collapseSpaceRuns : List Char → Bool → List Char
  | [], _ => []
  | c :: t, prev =>
    if isJsSpace c then
      if prev then collapseSpaceRuns t true
      else ' ' :: collapseSpaceRuns t true
    else c :: collapseSpaceRuns t false

/-- The step `.trim()`: removes whitespace from both ends. -/
def trimJs (l : List Char) : List Char :=
  ((l.dropWhile isJsSpace).reverse.dropWhile isJsSpace).reverse

/-- Function `sanitizeFilename` from src/utils/validator.ts:
remove illegal characters, collapse whitespace runs to single spaces,
trim, then `.slice(0, 200)`. -/
def sanitizeFilename (s : String) : String :=
  String.mk ((trimJs (collapseSpaceRuns (s.data.filter (fun c => !isIllegalChar c)) false)).take 200)

/-- ASCII lowercasing, sufficient for the case-insensitive regexes of the
source (all their letters are ASCII). -/
def lowerChar (c : Char) : Char :=
  if 'A' ≤ c ∧ c ≤ 'Z' then Char.ofNat (c.toNat + 32) else c

/-- Case-insensitive literal match at the head of a character list. -/
def lowerEqAt : List Char → List Char → Bool
  | [], _ => true
  | _ :: _, [] => false
  | p :: ps, h :: hs => (lowerChar p == lowerChar h) && lowerEqAt ps hs

/-- Case-insensitive unanchored substring test (a case-insensitive regex of
a literal pattern). -/
def containsCI (pat : List Char) : List Char → Bool
  | [] => lowerEqAt pat []
  | h :: t => lowerEqAt pat (h :: t) || containsCI pat t

/-- A pattern type covering the regexes of `isValidYouTubeUrl`: literals,
sequencing, and optional groups. All those regexes carry the /i flag, so
literal characters are compared case-insensitively. -/
inductive Pat where
  | eps
  | lit (c : Char)
  | seq (p q : Pat)
  | opt (p : Pat)

/-- Backtracking matcher in continuation style: `patMatch p l k` holds when
some parse of `p` consumes a prefix of `l` and the continuation `k` accepts
the remainder. -/
def patMatch : Pat → List Char → (List Char → Bool) → Bool
  | .eps, l, k => k l
  | .lit _, [], _ => false
  | .lit c, d :: t, k => (lowerChar d == lowerChar c) && k t
  | .seq p q, l, k => patMatch p l (fun rest => patMatch q rest k)
  | .opt p, l, k => k l || patMatch p l k

/-- A literal string pattern. -/
def strPat (s : String) : Pat :=
  s.data.foldr (fun c acc => Pat.seq (Pat.lit c) acc) Pat.eps

/-- The scheme group `(?:https?:)?` of the url regexes. -/
def schemePat : Pat :=
  Pat.opt (Pat.seq (strPat "http") (Pat.seq (Pat.opt (Pat.lit 's')) (Pat.lit ':')))

/-- The regex list of `isValidYouTubeUrl` from src/utils/validator.ts. -/
def youtubePatterns : List Pat :=
  [ Pat.seq schemePat (Pat.seq (strPat "//") (Pat.seq (Pat.opt (strPat "www."))
      (strPat "youtube.com/playlist?list="))),
    Pat.seq schemePat (Pat.seq (strPat "//") (Pat.seq (Pat.opt (strPat "www."))
      (strPat "youtube.com/watch?v="))),
    Pat.seq schemePat (Pat.seq (strPat "//") (strPat "music.youtube.com/playlist?list=")),
    Pat.seq schemePat (Pat.seq (strPat "//") (strPat "music.youtube.com/browse/")),
    Pat.seq schemePat (Pat.seq (strPat "//") (strPat "youtu.be/")) ]

/-- Unanchored `RegExp.test`: try to match at every start position. -/
def searchPat (p : Pat) : List Char → Bool
  | [] => patMatch p [] (fun _ => true)
  | c :: t => patMatch p (c :: t) (fun _ => true) || searchPat p t

/-- Function `isValidYouTubeUrl` from src/utils/validator.ts. -/
def isValidYouTubeUrl (url : String) : Bool :=
  youtubePatterns.any (fun p => searchPat p url.data)

/-- The character class [a-zA-Z0-9_-] of the playlist-id capture group. -/
def isIdChar (c : Char) : Bool :=
  ('a' ≤ c && c ≤ 'z') || ('A' ≤ c && c ≤ 'Z') || ('0' ≤ c && c ≤ '9') ||
  c == '_' || c == '-'

/-- Case-sensitive literal match at the head of a character list. -/
def litAt : List Char → List Char → Bool
  | [], _ => true
  | _ :: _, [] => false
  | p :: ps, h :: hs => (p == h) && litAt ps hs

/-- The scan of `url.match(/[?&]list=([a-zA-Z0-9_-]+)/)`: at each position,
a match requires a '?' or '&', the literal "list=", and at least one
id character; the capture is the maximal id-character run. -/
def extractPlaylistIdAux : List Char → Option (List Char)
  | [] => none
  | c :: t =>
    if (c == '?' || c == '&') && litAt "list=".data t then
      let captured := (t.drop 5).takeWhile isIdChar
      if captured.isEmpty then extractPlaylistIdAux t else some captured
    else extractPlaylistIdAux t

/-- Function `extractPlaylistId` from src/utils/validator.ts. -/
def extractPlaylistId (url : String) : Option String :=
  (extractPlaylistIdAux url.data).map String.mk

/-- Function `validateAndExtractId` from src/services/youtube/fetcher.ts; a thrown
`Error` is embedded as `Except.error` of its message. -/
def validateAndExtractId (url : String) : Except String String :=
  if !isValidYouTubeUrl url then
    Except.error ("Invalid YouTube URL: " ++ url)
  else
    match extractPlaylistId url with
    | none => Except.error ("Could not extract playlist ID from URL: " ++ url)
    | some pid => Except.ok pid

/-! ## Connectivity monitor (downloader source, waitForReconnect / isOnline)

`isOnline` performs one network probe; a run of `waitForReconnect` is
determined by the sequence of probe outcomes, given here as a `List Bool`.
The model returns the console messages emitted and whether the call
returned (`true`) or was still polling when the given probes ran out
(`false`). -/

/-- The three console messages `waitForReconnect` can print. -/
inductive ConnMsg where
  | wentOffline
  | stillOffline
  | reconnected
deriving DecidableEq, Repr

/-- The loop body of `waitForReconnect`, with the `announced` flag explicit. -/
def waitForReconnectAux : List Bool → Bool → List ConnMsg × Bool
  | [], _ => ([], false)
  | true :: _, announced => (if announced then [ConnMsg.reconnected] else [], true)
  | false :: rest, announced =>
    let m := if announced then ConnMsg.stillOffline else ConnMsg.wentOffline
    let r := waitForReconnectAux rest true
    (m :: r.1, r.2)

/-- Function `waitForReconnect` from the downloader source: `announced` starts false. -/
def waitForReconnect (probes : List Bool) : List ConnMsg × Bool :=
  waitForReconnectAux probes false

/-! ## Network-error classification (downloader source) -/

/-- The list `NETWORK_ERROR_PATTERNS`: all eight regexes are case-insensitive
literal substring tests. -/
def NETWORK_ERROR_PATTERNS : List String :=
  [ "ENOTFOUND", "EAI_AGAIN", "ECONNRESET", "ETIMEDOUT",
    "network is unreachable", "getaddrinfo ENOTFOUND",
    "Temporary failure in name resolution", "Resolving timed out" ]

/-- Function `isNetworkError` from the downloader source. -/
def isNetworkError (message : String) : Bool :=
  NETWORK_ERROR_PATTERNS.any (fun p => containsCI p.data message.data)

/-! ## Job pipeline (downloadSong) -/

/-- The outcomes of the external effects of one job: `fetch n` is the
outcome of the n-th yt-dlp attempt (`none` for success, `some msg` for a
raised error with message `msg`), `transcode` is the ffmpeg outcome. -/
structure JobEnv where
  fetch : Nat → Option String
  transcode : Option String

/-- Observable events of one `downloadSong` run: a completed
`waitForReconnect` call, an invocation of the external fetch tool, or an
`onProgress` callback. -/
inductive Ev where
  | waitConn
  | fetchAttempt (n : Nat)
  | progress (p : DownloadProgress)
deriving DecidableEq, Repr

/-- The progress object `downloadSong` passes to `onProgress`. -/
def progressEv (song : Song) (st : DStatus) (pct : Nat) (err : Option String) :
    DownloadProgress :=
  { songId := song.id, title := song.title, status := st, progress := pct, error := err }

/-- Constant `maxRetries` in `downloadSong`. -/
def maxRetries : Nat := 4

/-- The retry loop of `downloadSong` (`for attempt = 1..maxRetries`),
with the loop counter explicit and fuel equal to the remaining loop
iterations. Each iteration: await connectivity, emit the `downloading`
progress event, run the fetch attempt; on success break, on a network
error with attempts remaining wait for connectivity and retry, otherwise
rethrow the error. -/
def fetchLoop (song : Song) (env : JobEnv) : Nat → Nat → List Ev × Except String Unit
  | 0, _ => ([], Except.ok ())
  | fuel + 1, attempt =>
    let evs : List Ev :=
      [Ev.waitConn, Ev.progress (progressEv song DStatus.downloading 0 none),
       Ev.fetchAttempt attempt]
    match env.fetch attempt with
    | none => (evs, Except.ok ())
    | some msg =>
      if isNetworkError msg && decide (attempt < maxRetries) then
        let r := fetchLoop song env fuel (attempt + 1)
        (evs ++ Ev.waitConn :: r.1, r.2)
      else (evs, Except.error msg)

/-- The output path `path.join(outputDir, sanitizedTitle + ".mp3")`. -/
def outputPathOf (song : Song) (outputDir : String) : String :=
  outputDir ++ "/" ++ sanitizeFilename (song.artist ++ " - " ++ song.title) ++ ".mp3"

/-- Function `downloadSong` from the downloader source: run the fetch retry loop;
on success emit the `converting` event, run the transcode, and on its
success emit `completed` and return a success result; any error caught at
the boundary emits the `failed` event (progress 0, error recorded) and
returns a failure result with an empty file path. -/
def downloadSong (song : Song) (outputDir : String) (env : JobEnv) :
    List Ev × DownloadResult :=
  let outputPath := outputPathOf song outputDir
  let lr := fetchLoop song env maxRetries 1
  match lr.2 with
  | Except.error msg =>
    (lr.1 ++ [Ev.progress (progressEv song DStatus.failed 0 (some msg))],
     { song := song, filePath := "", success := false, error := some msg })
  | Except.ok _ =>
    let evs := lr.1 ++ [Ev.progress (progressEv song DStatus.converting 50 none)]
    match env.transcode with
    | none =>
      (evs ++ [Ev.progress (progressEv song DStatus.completed 100 none)],
       { song := song, filePath := outputPath, success := true, error := none })
    | some err =>
      (evs ++ [Ev.progress (progressEv song DStatus.failed 0 (some err))],
       { song := song, filePath := "", success := false, error := some err })

/-! ## Scheduler (downloadSongs)

`downloadSongs` hands every song to a p-queue with the given concurrency
limit and pushes each job's result when it settles. The admission
discipline of the queue (start a queued task whenever fewer than
`concurrency` tasks are running; on task completion immediately start the
next queued task) is not part of this repository's sources; it is modelled
from the spec's Scheduler contract (bounded pool of at most `concurrency`
active jobs, next item admitted as soon as a slot frees). Completion order
of active jobs is unconstrained, so a run is parameterised by the sequence
of choices of which active job finishes next. -/

/-- Scheduler state: songs not yet admitted (in batch order), songs whose
jobs are running, and the results pushed so far (in completion order). -/
structure SchedState where
  pending : List Song
  active : List Song
  results : List DownloadResult
deriving Repr

/-- Admit pending songs while a worker slot is free. Returns the new
pending list and active list. -/
def fillGo (c : Nat) : List Song → List Song → List Song × List Song
  | [], act => ([], act)
  | s :: rest, act =>
    if act.length < c then fillGo c rest (act ++ [s])
    else (s :: rest, act)

/-- Admit as many pending songs as free slots allow. -/
def fill (c : Nat) (st : SchedState) : SchedState :=
  let p := fillGo c st.pending st.active
  { pending := p.1, active := p.2, results := st.results }

/-- One scheduling step: the `i`-th active job finishes, its result is
pushed, and freed slots are refilled from the pending queue. An
out-of-range choice changes nothing. -/
def stepFinish (c : Nat) (outputDir : String) (env : Song → JobEnv)
    (st : SchedState) (i : Nat) : SchedState :=
  if h : i < st.active.length then
    let s := st.active.get ⟨i, h⟩
    fill c { pending := st.pending, active := st.active.eraseIdx i,
             results := st.results ++ [(downloadSong s outputDir (env s)).2] }
  else st

/-- The initial state: the queue starts the first `c` songs immediately. -/
def initSched (c : Nat) (songs : List Song) : SchedState :=
  fill c { pending := songs, active := [], results := [] }

/-- A possibly incomplete run of the scheduler under a sequence of
finish choices. -/
def runSched (c : Nat) (outputDir : String) (env : Song → JobEnv)
    (songs : List Song) (choices : List Nat) : SchedState :=
  choices.foldl (stepFinish c outputDir env) (initSched c songs)

/-- The default `concurrency = 5` of the destructuring in `downloadSongs`. -/
def effectiveConcurrency (copt : Option Nat) : Nat := copt.getD 5

/-- The scheduler state of a `downloadSongs` call (concurrency option as
passed by the caller, defaulting to 5). -/
def downloadSongsRun (songs : List Song) (copt : Option Nat) (outputDir : String)
    (env : Song → JobEnv) (choices : List Nat) : SchedState :=
  runSched (effectiveConcurrency copt) outputDir env songs choices

/-- What `downloadSongs` resolves with: it performs no emptiness check and
never rejects — after the queue drains it returns the pushed results. -/
def downloadSongsReturn (songs : List Song) (copt : Option Nat) (outputDir : String)
    (env : Song → JobEnv) (choices : List Nat) : Except String (List DownloadResult) :=
  Except.ok (downloadSongsRun songs copt outputDir env choices).results

/-! ## Observers, mirror functions and invariants used by the theorems -/

/-- Adjacent characters are not both whitespace. -/
def spaceFree (a b : Char) : Prop := isJsSpace a = false ∨ isJsSpace b = false

/-- Attempt numbers of the fetch-tool invocations in a trace, in order. -/
def attemptsIn (tr : List Ev) : List Nat :=
  tr.filterMap (fun e => match e with | Ev.fetchAttempt n => some n | _ => none)

/-- The numeric progress indicators emitted in a trace, in order. -/
def progressNums (tr : List Ev) : List Nat :=
  tr.filterMap (fun e => match e with | Ev.progress p => some p.progress | _ => none)

/-- Whether attempt `k`'s fetch fails with a network-classified error. -/
def netFailB (env : JobEnv) (k : Nat) : Bool :=
  match env.fetch k with
  | some e => isNetworkError e
  | none => false

/-- Number of fetch attempts the loop performs, starting at attempt `a`
with the given remaining iterations. -/
def numAtt (env : JobEnv) : Nat → Nat → Nat
  | 0, _ => 0
  | fuel + 1, a =>
    if netFailB env a && decide (a < maxRetries) then 1 + numAtt env fuel (a + 1) else 1

/-- The outcome of the retry loop: `ok` when some attempt succeeded (or the
loop exited), `error msg` when the loop rethrew a fetch error. -/
def fetchOutcome (env : JobEnv) : Nat → Nat → Except String Unit
  | 0, _ => Except.ok ()
  | fuel + 1, a =>
    match env.fetch a with
    | none => Except.ok ()
    | some msg =>
      if isNetworkError msg && decide (a < maxRetries) then fetchOutcome env fuel (a + 1)
      else Except.error msg

/-- Checker for "every fetch-tool invocation is preceded by a completed
connectivity wait": scans a trace keeping a flag that a connectivity wait
has completed since the last fetch invocation; each fetch invocation
requires the flag and consumes it. -/
def connOk : List Ev → Bool → Bool
  | [], _ => true
  | Ev.waitConn :: t, _ => connOk t true
  | Ev.fetchAttempt _ :: t, ready => ready && connOk t false
  | Ev.progress _ :: t, ready => connOk t ready

/-- Scheduler invariant: the songs in flight (pending, active, finished)
are exactly the batch; every pushed result is the pipeline's result for
its own song; at most `c` jobs are active; and no worker slot is free
while items are still queued. -/
def SchedInv (c : Nat) (outputDir : String) (env : Song → JobEnv) (songs : List Song)
    (st : SchedState) : Prop :=
  (st.pending ++ st.active ++ st.results.map DownloadResult.song).Perm songs ∧
  (∀ r ∈ st.results, r = (downloadSong r.song outputDir (env r.song)).2) ∧
  st.active.length ≤ c ∧
  (st.pending ≠ [] → st.active.length = c)

/-- A concrete song, used for witnesses and counterexamples. -/
def sampleSong : Song :=
  { id := "dQw4w9WgXcQ", title := "Title", artist := "Artist", duration := 212 }

/-- A second concrete song. -/
def sampleSong2 : Song :=
  { id := "abc123XYZ-_", title := "Other", artist := "Band", duration := 180 }

/-- Environment in which every fetch attempt and the transcode succeed. -/
def envFetchOk : JobEnv := { fetch := fun _ => none, transcode := none }

/-- Environment in which the fetch succeeds but the transcode fails. -/
def envTranscodeFail : JobEnv :=
  { fetch := fun _ => none, transcode := some "ffmpeg exited with code 1" }

/-- Environment in which the first fetch attempt fails with a non-network
error. -/
def envBadFetch : JobEnv :=
  { fetch := fun _ => some "Command failed: py -m yt_dlp", transcode := none }

/-- Environment in which every fetch attempt fails with a network error. -/
def envAllNet : JobEnv :=
  { fetch := fun k => some ("ETIMEDOUT on attempt " ++ toString k), transcode := none }

/-- Environment in which the first two fetch attempts fail with a network
error and the third succeeds. -/
def envNetTwice : JobEnv :=
  { fetch := fun k => if k ≤ 2 then some "read ECONNRESET" else none, transcode := none }

/-! ## Lemmas about sanitizeFilename -/

theorem spaceFree_flip {a b : Char} (h : spaceFree a b) : spaceFree b a := h.symm

theorem mem_collapseSpaceRuns {c : Char} :
    ∀ (l : List Char) (b : Bool), c ∈ collapseSpaceRuns l b → c = ' ' ∨ c ∈ l := by
  intro l
  induction l with
  | nil => intro b h; simp [collapseSpaceRuns] at h
  | cons d t ih =>
    intro b h
    by_cases hd : isJsSpace d
    · cases b with
      | true =>
        simp only [collapseSpaceRuns, hd, if_true] at h
        rcases ih true h with h' | h'
        · exact Or.inl h'
        · exact Or.inr (List.mem_cons_of_mem d h')
      | false =>
        simp only [collapseSpaceRuns, hd, if_true] at h
        rcases List.mem_cons.mp h with h' | h'
        · exact Or.inl h'
        · rcases ih true h' with h'' | h''
          · exact Or.inl h''
          · exact Or.inr (List.mem_cons_of_mem d h'')
    · simp only [collapseSpaceRuns, hd, if_false] at h
      rcases List.mem_cons.mp h with h' | h'
      · exact Or.inr (h' ▸ List.mem_cons_self d t)
      · rcases ih false h' with h'' | h''
        · exact Or.inl h''
        · exact Or.inr (List.mem_cons_of_mem d h'')

theorem collapseSpaceRuns_props (l : List Char) :
    (∀ b, List.Chain' spaceFree (collapseSpaceRuns l b)) ∧
    (∀ c, (collapseSpaceRuns l true).head? = some c → isJsSpace c = false) := by
  induction l with
  | nil => exact ⟨fun b => by simp [collapseSpaceRuns], fun c h => by simp [collapseSpaceRuns] at h⟩
  | cons d t ih =>
    by_cases hd : isJsSpace d
    · refine ⟨fun b => ?_, fun c h => ?_⟩
      · cases b with
        | true => simpa only [collapseSpaceRuns, hd, if_true] using ih.1 true
        | false =>
          simp only [collapseSpaceRuns, hd, if_true, Bool.false_eq_true, if_false]
          rw [List.chain'_cons']
          refine ⟨fun y hy => Or.inr (ih.2 y hy), ih.1 true⟩
      · simp only [collapseSpaceRuns, hd, if_true] at h
        exact ih.2 c h
    · rw [Bool.not_eq_true] at hd
      refine ⟨fun b => ?_, fun c h => ?_⟩
      · simp only [collapseSpaceRuns, hd, Bool.false_eq_true, if_false]
        rw [List.chain'_cons']
        exact ⟨fun y _ => Or.inl hd, ih.1 false⟩
      · simp only [collapseSpaceRuns, hd, Bool.false_eq_true, if_false, List.head?_cons,
          Option.some.injEq] at h
        subst h
        exact hd

theorem trimJs_subset (l : List Char) : trimJs l ⊆ l := by
  intro c hc
  unfold trimJs at hc
  rw [List.mem_reverse] at hc
  have h1 := (List.dropWhile_sublist isJsSpace).subset hc
  rw [List.mem_reverse] at h1
  exact (List.dropWhile_sublist isJsSpace).subset h1

theorem trimJs_chain' {l : List Char} (h : List.Chain' spaceFree l) :
    List.Chain' spaceFree (trimJs l) := by
  unfold trimJs
  rw [List.chain'_reverse]
  have hsuf : List.dropWhile isJsSpace (l.dropWhile isJsSpace).reverse <:+
      (l.dropWhile isJsSpace).reverse := List.dropWhile_suffix isJsSpace
  have hrev : List.Chain' spaceFree (l.dropWhile isJsSpace) :=
    List.Chain'.suffix h (List.dropWhile_suffix isJsSpace)
  have hrev2 : List.Chain' (flip spaceFree) (l.dropWhile isJsSpace) :=
    hrev.imp (fun {a b} hab => spaceFree_flip hab)
  have hrev3 : List.Chain' (flip spaceFree) ((l.dropWhile isJsSpace).reverse.dropWhile isJsSpace) := by
    have hall : List.Chain' (flip spaceFree) (l.dropWhile isJsSpace).reverse := by
      rw [List.chain'_reverse]
      exact hrev2.imp (fun {a b} hab => spaceFree_flip hab)
    exact List.Chain'.suffix hall hsuf
  exact hrev3

/-- C9: for every input string, `sanitizeFilename` produces a string with
none of the characters / \ ? % * : | " < >, no run of two or more
consecutive whitespace characters, and length at most 200. -/
theorem sanitizeFilename_safe (s : String) :
    ((sanitizeFilename s).data.all (fun c => !isIllegalChar c)) = true ∧
    List.Chain' spaceFree (sanitizeFilename s).data ∧
    (sanitizeFilename s).length ≤ 200 := by
  have hdata : (sanitizeFilename s).data =
      (trimJs (collapseSpaceRuns (s.data.filter (fun c => !isIllegalChar c)) false)).take 200 := rfl
  refine ⟨?_, ?_, ?_⟩
  · rw [List.all_eq_true]
    intro c hc
    rw [hdata] at hc
    have h1 : c ∈ trimJs (collapseSpaceRuns (s.data.filter (fun c => !isIllegalChar c)) false) :=
      List.take_subset 200 _ hc
    have h2 := trimJs_subset _ h1
    rcases mem_collapseSpaceRuns _ false h2 with h3 | h3
    · subst h3; decide
    · exact (List.mem_filter.mp h3).2
  · rw [hdata]
    have hchain := trimJs_chain' ((collapseSpaceRuns_props (s.data.filter (fun c => !isIllegalChar c))).1 false)
    have hpre := List.take_prefix 200 (trimJs (collapseSpaceRuns (s.data.filter (fun c => !isIllegalChar c)) false))
    exact List.Chain'.prefix hchain hpre
  · have hlen : (sanitizeFilename s).length = (sanitizeFilename s).data.length := rfl
    rw [hlen, hdata, List.length_take]
    exact min_le_left ..

/-- C10: there is a URL accepted by `isValidYouTubeUrl` (a watch link with
no list= query parameter) on which `validateAndExtractId` nevertheless
fails with the "Could not extract playlist ID" error: URL validation does
not guarantee playlist-ID extraction succeeds. -/
theorem validateAndExtractId_can_fail_on_valid_url :
    isValidYouTubeUrl "https://www.youtube.com/watch?v=dQw4w9WgXcQ" = true ∧
    extractPlaylistId "https://www.youtube.com/watch?v=dQw4w9WgXcQ" = none ∧
    validateAndExtractId "https://www.youtube.com/watch?v=dQw4w9WgXcQ" =
      Except.error
        "Could not extract playlist ID from URL: https://www.youtube.com/watch?v=dQw4w9WgXcQ" :=
  ⟨rfl, rfl, rfl⟩

/-! ## Lemmas about waitForReconnect -/

theorem waitForReconnectAux_spec (probes : List Bool) (a : Bool) :
    waitForReconnectAux probes a =
      ((if a then List.replicate (probes.takeWhile (fun b => !b)).length ConnMsg.stillOffline
        else if (probes.takeWhile (fun b => !b)).length = 0 then []
        else ConnMsg.wentOffline ::
          List.replicate ((probes.takeWhile (fun b => !b)).length - 1) ConnMsg.stillOffline) ++
       (if (probes.takeWhile (fun b => !b)).length < probes.length ∧
           (a = true ∨ 0 < (probes.takeWhile (fun b => !b)).length)
        then [ConnMsg.reconnected] else []),
       decide ((probes.takeWhile (fun b => !b)).length < probes.length)) := by
  induction probes generalizing a with
  | nil => cases a <;> simp [waitForReconnectAux]
  | cons p rest ih =>
    cases p with
    | true => cases a <;> simp [waitForReconnectAux, List.takeWhile]
    | false =>
      have ihτ := ih true
      cases a <;>
        simp [waitForReconnectAux, List.takeWhile, ihτ, List.replicate_succ,
          Nat.succ_lt_succ_iff]

/-- C7 counterexample: with probe outcomes offline, offline, online there is
a single offline period (one going-offline and one coming-online
transition), yet `waitForReconnect` emits three messages — one on every
poll iteration, including a "still offline" message on the second failed
poll — so it does not emit at most one notification per state transition. -/
theorem waitForReconnect_emits_on_every_failed_poll :
    (waitForReconnect [false, false, true]).1 =
      [ConnMsg.wentOffline, ConnMsg.stillOffline, ConnMsg.reconnected] ∧
    ¬((waitForReconnect [false, false, true]).1.length ≤ 2) := by
  refine ⟨rfl, by decide⟩

/-- C7 amended: a single `waitForReconnect` call emits the going-offline
notification exactly once (on the first failed probe) and the reconnected
notification exactly once (when a probe succeeds after it went offline),
and nothing when the first probe succeeds — but it additionally emits a
still-offline reminder on every failed probe after the first. With `n`
leading failed probes the emitted messages are exactly
`wentOffline :: replicate (n-1) stillOffline`, followed by `reconnected`
when connectivity returns, and the call returns exactly when some probe
succeeds. -/
theorem waitForReconnect_message_discipline (probes : List Bool) :
    waitForReconnect probes =
      ((if (probes.takeWhile (fun b => !b)).length = 0 then []
        else ConnMsg.wentOffline ::
          List.replicate ((probes.takeWhile (fun b => !b)).length - 1) ConnMsg.stillOffline) ++
       (if (probes.takeWhile (fun b => !b)).length < probes.length ∧
           0 < (probes.takeWhile (fun b => !b)).length
        then [ConnMsg.reconnected] else []),
       decide ((probes.takeWhile (fun b => !b)).length < probes.length)) := by
  have h := waitForReconnectAux_spec probes false
  simpa [waitForReconnect] using h

/-! ## Lemmas about the fetch retry loop -/

theorem numAtt_le (env : JobEnv) : ∀ fuel a, numAtt env fuel a ≤ fuel := by
  intro fuel
  induction fuel with
  | zero => intro a; simp [numAtt]
  | succ f ih =>
    intro a
    simp only [numAtt]
    split
    · have := ih (a + 1); omega
    · omega

theorem numAtt_pos (env : JobEnv) (fuel a : Nat) : 1 ≤ numAtt env (fuel + 1) a := by
  simp only [numAtt]
  split <;> omega

theorem fetchLoop_snd (song : Song) (env : JobEnv) :
    ∀ fuel a, (fetchLoop song env fuel a).2 = fetchOutcome env fuel a := by
  intro fuel
  induction fuel with
  | zero => intro a; rfl
  | succ f ih =>
    intro a
    simp only [fetchLoop, fetchOutcome]
    rcases h : env.fetch a with _ | msg
    · rfl
    · by_cases hn : (isNetworkError msg && decide (a < maxRetries)) = true
      · simp only [hn, if_true]
        exact ih (a + 1)
      · rw [Bool.not_eq_true] at hn
        simp [hn]

theorem attemptsIn_fetchLoop (song : Song) (env : JobEnv) :
    ∀ fuel a, attemptsIn (fetchLoop song env fuel a).1 = List.range' a (numAtt env fuel a) := by
  intro fuel
  induction fuel with
  | zero => intro a; simp [fetchLoop, attemptsIn, numAtt]
  | succ f ih =>
    intro a
    cases h : env.fetch a with
    | none => simp [fetchLoop, numAtt, netFailB, h, attemptsIn, List.range'_succ]
    | some msg =>
      by_cases hn : (isNetworkError msg && decide (a < maxRetries)) = true
      · have hrw : attemptsIn (fetchLoop song env (f + 1) a).1 =
            a :: attemptsIn (fetchLoop song env f (a + 1)).1 := by
          simp [fetchLoop, h, hn, attemptsIn, List.filterMap_append]
        have hnum : numAtt env (f + 1) a = numAtt env f (a + 1) + 1 := by
          simp only [numAtt, netFailB, h, hn, if_true]
          omega
        rw [hrw, ih (a + 1), hnum]
        rfl
      · rw [Bool.not_eq_true] at hn
        simp [fetchLoop, numAtt, netFailB, h, hn, attemptsIn, List.range'_succ]

theorem progressNums_fetchLoop (song : Song) (env : JobEnv) :
    ∀ fuel a, progressNums (fetchLoop song env fuel a).1 =
      List.replicate (numAtt env fuel a) 0 := by
  intro fuel
  induction fuel with
  | zero => intro a; simp [fetchLoop, progressNums, numAtt]
  | succ f ih =>
    intro a
    cases h : env.fetch a with
    | none => simp [fetchLoop, numAtt, netFailB, h, progressNums, progressEv]
    | some msg =>
      by_cases hn : (isNetworkError msg && decide (a < maxRetries)) = true
      · have hrw : progressNums (fetchLoop song env (f + 1) a).1 =
            0 :: progressNums (fetchLoop song env f (a + 1)).1 := by
          simp [fetchLoop, h, hn, progressNums, List.filterMap_append, progressEv]
        have hnum : numAtt env (f + 1) a = numAtt env f (a + 1) + 1 := by
          simp only [numAtt, netFailB, h, hn, if_true]
          omega
        rw [hrw, ih (a + 1), hnum]
        rfl
      · rw [Bool.not_eq_true] at hn
        simp [fetchLoop, numAtt, netFailB, h, hn, progressNums, progressEv]

theorem numAtt_eq (env : JobEnv) :
    numAtt env maxRetries 1 =
      if netFailB env 1 = false then 1
      else if netFailB env 2 = false then 2
      else if netFailB env 3 = false then 3
      else 4 := by
  cases h1 : netFailB env 1 <;> cases h2 : netFailB env 2 <;> cases h3 : netFailB env 3 <;>
    simp [numAtt, maxRetries, h1, h2, h3]

/-- The loop outcome is determined by the fetch result of the stopping
attempt: success if that fetch succeeded, the rethrown error otherwise.
The invariant `a + fuel = maxRetries + 1` ties the loop counter to the
remaining fuel as in `downloadSong`. -/
theorem fetchOutcome_char (env : JobEnv) :
    ∀ fuel a, 1 ≤ fuel → a + fuel = maxRetries + 1 →
      fetchOutcome env fuel a =
        (match env.fetch (a + numAtt env fuel a - 1) with
         | none => Except.ok ()
         | some e => Except.error e) := by
  intro fuel
  induction fuel with
  | zero => omega
  | succ f ih =>
    intro a _ hinv
    cases h : env.fetch a with
    | none =>
      have hn : netFailB env a = false := by simp [netFailB, h]
      simp [fetchOutcome, numAtt, netFailB, h]
    | some msg =>
      by_cases hn : (isNetworkError msg && decide (a < maxRetries)) = true
      · have hfo : fetchOutcome env (f + 1) a = fetchOutcome env f (a + 1) := by
          simp [fetchOutcome, h, hn]
        have hnum : numAtt env (f + 1) a = numAtt env f (a + 1) + 1 := by
          simp only [numAtt, netFailB, h, hn, if_true]
          omega
        have hf1 : 1 ≤ f := by
          have := Bool.and_elim_right hn
          simp [maxRetries] at this hinv ⊢
          omega
        have hidx : a + (numAtt env f (a + 1) + 1) - 1 = a + 1 + numAtt env f (a + 1) - 1 := by
          omega
        rw [hfo, hnum, hidx, ih (a + 1) hf1 (by omega)]
      · have hidx : a + numAtt env (f + 1) a - 1 = a := by
          have : numAtt env (f + 1) a = 1 := by
            simp only [numAtt, netFailB, h]
            simp [hn]
          omega
        rw [Bool.not_eq_true] at hn
        simp [fetchOutcome, h, hn, hidx]

theorem mem_range'_one {m n : Nat} : m ∈ List.range' 1 n ↔ 1 ≤ m ∧ m ≤ n := by
  rw [List.mem_range']
  constructor
  · rintro ⟨i, hi, rfl⟩; omega
  · rintro ⟨h1, h2⟩; exact ⟨m - 1, by omega, by omega⟩

/-- The loop performs attempt `k + 1` precisely when it performed attempt
`k`, attempts remained, and attempt `k` failed with a network error. -/
theorem fetchRetryKey (env : JobEnv) (k : Nat) (hk : 1 ≤ k) :
    k + 1 ≤ numAtt env maxRetries 1 ↔
      (k ≤ numAtt env maxRetries 1 ∧ k < maxRetries ∧ netFailB env k = true) := by
  have hle : numAtt env maxRetries 1 ≤ 4 := by
    have := numAtt_le env maxRetries 1
    simpa [maxRetries] using this
  rcases Nat.lt_or_ge k 4 with h4 | h4
  · interval_cases k
    · cases h1 : netFailB env 1 <;> cases h2 : netFailB env 2 <;> cases h3 : netFailB env 3 <;>
        rw [numAtt_eq] <;> simp [maxRetries, h1, h2, h3]
    · cases h1 : netFailB env 1 <;> cases h2 : netFailB env 2 <;> cases h3 : netFailB env 3 <;>
        rw [numAtt_eq] <;> simp [maxRetries, h1, h2, h3]
    · cases h1 : netFailB env 1 <;> cases h2 : netFailB env 2 <;> cases h3 : netFailB env 3 <;>
        rw [numAtt_eq] <;> simp [maxRetries, h1, h2, h3]
  · constructor
    · intro h; omega
    · rintro ⟨_, hlt, _⟩
      have : k < 4 := by simpa [maxRetries] using hlt
      omega

theorem attemptsIn_append (l1 l2 : List Ev) :
    attemptsIn (l1 ++ l2) = attemptsIn l1 ++ attemptsIn l2 := by
  simp [attemptsIn]

theorem progressNums_append (l1 l2 : List Ev) :
    progressNums (l1 ++ l2) = progressNums l1 ++ progressNums l2 := by
  simp [progressNums]

/-- Evaluation of `downloadSong` when the retry loop rethrows a fetch error. -/
theorem downloadSong_fetchError (song : Song) (outputDir : String) (env : JobEnv)
    (msg : String) (h : fetchOutcome env maxRetries 1 = Except.error msg) :
    downloadSong song outputDir env =
      ((fetchLoop song env maxRetries 1).1 ++
        [Ev.progress (progressEv song DStatus.failed 0 (some msg))],
       { song := song, filePath := "", success := false, error := some msg }) := by
  have h2 : (fetchLoop song env maxRetries 1).2 = Except.error msg :=
    (fetchLoop_snd song env maxRetries 1).trans h
  simp [downloadSong, h2]

/-- Evaluation of `downloadSong` when the fetch succeeds and the transcode succeeds. -/
theorem downloadSong_allOk (song : Song) (outputDir : String) (env : JobEnv)
    (hf : fetchOutcome env maxRetries 1 = Except.ok ()) (ht : env.transcode = none) :
    downloadSong song outputDir env =
      (((fetchLoop song env maxRetries 1).1 ++
          [Ev.progress (progressEv song DStatus.converting 50 none)]) ++
        [Ev.progress (progressEv song DStatus.completed 100 none)],
       { song := song, filePath := outputPathOf song outputDir, success := true,
         error := none }) := by
  have h2 : (fetchLoop song env maxRetries 1).2 = Except.ok () :=
    (fetchLoop_snd song env maxRetries 1).trans hf
  simp [downloadSong, h2, ht]

/-- Evaluation of `downloadSong` when the fetch succeeds but the transcode fails. -/
theorem downloadSong_transcodeError (song : Song) (outputDir : String) (env : JobEnv)
    (err : String) (hf : fetchOutcome env maxRetries 1 = Except.ok ())
    (ht : env.transcode = some err) :
    downloadSong song outputDir env =
      (((fetchLoop song env maxRetries 1).1 ++
          [Ev.progress (progressEv song DStatus.converting 50 none)]) ++
        [Ev.progress (progressEv song DStatus.failed 0 (some err))],
       { song := song, filePath := "", success := false, error := some err }) := by
  have h2 : (fetchLoop song env maxRetries 1).2 = Except.ok () :=
    (fetchLoop_snd song env maxRetries 1).trans hf
  simp [downloadSong, h2, ht]

theorem attemptsIn_downloadSong (song : Song) (outputDir : String) (env : JobEnv) :
    attemptsIn (downloadSong song outputDir env).1 =
      List.range' 1 (numAtt env maxRetries 1) := by
  rcases hfo : fetchOutcome env maxRetries 1 with msg | u
  · rw [downloadSong_fetchError song outputDir env msg hfo, attemptsIn_append,
      attemptsIn_fetchLoop song env]
    simp [attemptsIn]
  · cases ht : env.transcode with
    | none =>
      rw [downloadSong_allOk song outputDir env hfo ht, attemptsIn_append, attemptsIn_append,
        attemptsIn_fetchLoop song env]
      simp [attemptsIn]
    | some err =>
      rw [downloadSong_transcodeError song outputDir env err hfo ht, attemptsIn_append,
        attemptsIn_append, attemptsIn_fetchLoop song env]
      simp [attemptsIn]

/-- C1: the pipeline retries a failed fetch precisely when the error
message is network-classified and fewer than 4 total attempts have been
made; a non-network fetch error makes the job fail after exactly the
attempt on which it occurred, with that error recorded; and a network
error on the 4th attempt is terminal with that last error recorded. The
first attempt always happens. -/
theorem downloadSong_retry_iff_network (song : Song) (outputDir : String) (env : JobEnv) :
    1 ∈ attemptsIn (downloadSong song outputDir env).1 ∧
    (∀ k, 1 ≤ k →
      (k + 1 ∈ attemptsIn (downloadSong song outputDir env).1 ↔
        (k ∈ attemptsIn (downloadSong song outputDir env).1 ∧
         k < maxRetries ∧ netFailB env k = true))) ∧
    (∀ k e, k ∈ attemptsIn (downloadSong song outputDir env).1 → env.fetch k = some e →
      isNetworkError e = false →
      (downloadSong song outputDir env).2.success = false ∧
      (downloadSong song outputDir env).2.error = some e ∧
      attemptsIn (downloadSong song outputDir env).1 = List.range' 1 k) ∧
    (∀ e, env.fetch maxRetries = some e →
      maxRetries ∈ attemptsIn (downloadSong song outputDir env).1 →
      (downloadSong song outputDir env).2.success = false ∧
      (downloadSong song outputDir env).2.error = some e) := by
  have hA := attemptsIn_downloadSong song outputDir env
  have hpos : 1 ≤ numAtt env maxRetries 1 := by
    have hm : maxRetries = 3 + 1 := rfl
    rw [hm]
    exact numAtt_pos env 3 1
  have hle4 := numAtt_le env maxRetries 1
  have hchar0 := fetchOutcome_char env maxRetries 1 (by simp [maxRetries]) (by simp [maxRetries])
  have hidx : 1 + numAtt env maxRetries 1 - 1 = numAtt env maxRetries 1 := by omega
  rw [hidx] at hchar0
  refine ⟨?_, ?_, ?_, ?_⟩
  · rw [hA, mem_range'_one]
    exact ⟨le_refl 1, hpos⟩
  · intro k hk
    rw [hA, mem_range'_one, mem_range'_one]
    have hkey := fetchRetryKey env k hk
    constructor
    · rintro ⟨-, h2⟩
      have h3 := hkey.mp h2
      exact ⟨⟨hk, h3.1⟩, h3.2.1, h3.2.2⟩
    · rintro ⟨⟨-, h1⟩, h2, h3⟩
      exact ⟨by omega, hkey.mpr ⟨h1, h2, h3⟩⟩
  · intro k e hkmem hfe hnet
    rw [hA, mem_range'_one] at hkmem
    obtain ⟨hk1, hkn⟩ := hkmem
    have hnf : netFailB env k = false := by simp [netFailB, hfe, hnet]
    have hkn' : k = numAtt env maxRetries 1 := by
      rcases Nat.lt_or_ge k (numAtt env maxRetries 1) with hlt | hge
      · exfalso
        have h := (fetchRetryKey env k hk1).mp (by omega)
        rw [hnf] at h
        exact Bool.false_ne_true h.2.2
      · omega
    rw [← hkn', hfe] at hchar0
    have hds := downloadSong_fetchError song outputDir env e hchar0
    exact ⟨by rw [hds], by rw [hds], by rw [hA, hkn']⟩
  · intro e hfe h4mem
    rw [hA, mem_range'_one] at h4mem
    have hn4 : numAtt env maxRetries 1 = maxRetries := by omega
    rw [hn4, hfe] at hchar0
    have hds := downloadSong_fetchError song outputDir env e hchar0
    exact ⟨by rw [hds], by rw [hds]⟩

/-- Witness for C1: a concrete non-network fetch error on the first
attempt makes the job fail after exactly one attempt with that error
recorded. -/
theorem downloadSong_retry_iff_network_witness :
    (downloadSong sampleSong "downloads" envBadFetch).2.success = false ∧
    (downloadSong sampleSong "downloads" envBadFetch).2.error =
      some "Command failed: py -m yt_dlp" ∧
    attemptsIn (downloadSong sampleSong "downloads" envBadFetch).1 = List.range' 1 1 := by
  exact (downloadSong_retry_iff_network sampleSong "downloads" envBadFetch).2.2.1 1
    "Command failed: py -m yt_dlp" (by decide) rfl rfl

theorem outputPathOf_ne_empty (song : Song) (outputDir : String) :
    outputPathOf song outputDir ≠ "" := by
  intro h
  have h2 := congrArg String.data h
  simp [outputPathOf, String.data_append] at h2

/-- C4: whatever the fetch and transcode steps do, `downloadSong` returns a
terminal result object carrying the item: on success the output path is
recorded and non-empty, on failure the error text is recorded — nothing
escapes the pipeline boundary. -/
theorem downloadSong_never_throws (song : Song) (outputDir : String) (env : JobEnv) :
    (downloadSong song outputDir env).2.song = song ∧
    ((downloadSong song outputDir env).2.success = true →
      (downloadSong song outputDir env).2.filePath = outputPathOf song outputDir ∧
      (downloadSong song outputDir env).2.filePath ≠ "" ∧
      (downloadSong song outputDir env).2.error = none) ∧
    ((downloadSong song outputDir env).2.success = false →
      (downloadSong song outputDir env).2.filePath = "" ∧
      ∃ m, (downloadSong song outputDir env).2.error = some m) := by
  rcases hfo : fetchOutcome env maxRetries 1 with msg | u
  · have hds := downloadSong_fetchError song outputDir env msg hfo
    refine ⟨by rw [hds], ?_, ?_⟩
    · intro hsucc
      rw [hds] at hsucc
      exact absurd hsucc (by simp)
    · intro _
      exact ⟨by rw [hds], msg, by rw [hds]⟩
  · cases ht : env.transcode with
    | none =>
      have hds := downloadSong_allOk song outputDir env hfo ht
      refine ⟨by rw [hds], ?_, ?_⟩
      · intro _
        exact ⟨by rw [hds], by rw [hds]; exact outputPathOf_ne_empty song outputDir,
          by rw [hds]⟩
      · intro hfail
        rw [hds] at hfail
        exact absurd hfail (by simp)
    | some err =>
      have hds := downloadSong_transcodeError song outputDir env err hfo ht
      refine ⟨by rw [hds], ?_, ?_⟩
      · intro hsucc
        rw [hds] at hsucc
        exact absurd hsucc (by simp)
      · intro _
        exact ⟨by rw [hds], err, by rw [hds]⟩

/-- Witness for C4 on a concrete all-success run: the result is a success
carrying the item and the derived output path. -/
theorem downloadSong_never_throws_witness :
    (downloadSong sampleSong "downloads" envFetchOk).2.song = sampleSong ∧
    (downloadSong sampleSong "downloads" envFetchOk).2.filePath =
      outputPathOf sampleSong "downloads" := by
  have h := downloadSong_never_throws sampleSong "downloads" envFetchOk
  exact ⟨h.1, (h.2.1 rfl).1⟩

/-- Prepending any number of zeros to a non-decreasing list of naturals
keeps it non-decreasing. -/
theorem chain'_le_replicate_zero_append (n : Nat) (l : List Nat)
    (h : List.Chain' (· ≤ ·) l) :
    List.Chain' (· ≤ ·) (List.replicate n 0 ++ l) := by
  induction n with
  | zero => simpa using h
  | succ m ih =>
    rw [List.replicate_succ, List.cons_append, List.chain'_cons']
    exact ⟨fun y _ => Nat.zero_le y, ih⟩

/-- C5 counterexample: when the fetch succeeds on the first attempt and
the transcode then fails, the emitted progress indicators are 0, 50, 0 —
the terminal `failed` event carries indicator 0, so the sequence is not
monotonically non-decreasing in executions that end in the failed status. -/
theorem downloadSong_progress_can_decrease :
    progressNums (downloadSong sampleSong "downloads" envTranscodeFail).1 = [0, 50, 0] ∧
    ¬ List.Chain' (· ≤ ·)
        (progressNums (downloadSong sampleSong "downloads" envTranscodeFail).1) := by
  have h : progressNums (downloadSong sampleSong "downloads" envTranscodeFail).1 =
      [0, 50, 0] := rfl
  refine ⟨h, ?_⟩
  rw [h]
  intro hc
  rw [List.chain'_cons, List.chain'_cons] at hc
  omega

/-- C5 amended: the progress indicators are non-decreasing in every
execution except for the terminal `failed` event, which always carries
indicator 0: dropping the final event leaves a non-decreasing sequence,
every successful execution is non-decreasing in full, and every failed
execution ends with indicator 0. -/
theorem downloadSong_progress_monotone_except_final_failure
    (song : Song) (outputDir : String) (env : JobEnv) :
    List.Chain' (· ≤ ·) ((progressNums (downloadSong song outputDir env).1).dropLast) ∧
    ((downloadSong song outputDir env).2.success = true →
      List.Chain' (· ≤ ·) (progressNums (downloadSong song outputDir env).1)) ∧
    ((downloadSong song outputDir env).2.success = false →
      (progressNums (downloadSong song outputDir env).1).getLast? = some 0) := by
  have hrep : List.Chain' (· ≤ ·) (List.replicate (numAtt env maxRetries 1) 0) := by
    have h := chain'_le_replicate_zero_append (numAtt env maxRetries 1) [] (by simp)
    simpa using h
  rcases hfo : fetchOutcome env maxRetries 1 with msg | u
  · have hds := downloadSong_fetchError song outputDir env msg hfo
    have hpn : progressNums (downloadSong song outputDir env).1 =
        List.replicate (numAtt env maxRetries 1) 0 ++ [0] := by
      rw [hds, progressNums_append, progressNums_fetchLoop song env]
      simp [progressNums, progressEv]
    refine ⟨?_, ?_, ?_⟩
    · rw [hpn, List.dropLast_concat]
      exact hrep
    · intro hsucc
      rw [hds] at hsucc
      exact absurd hsucc (by simp)
    · intro _
      rw [hpn, List.getLast?_concat]
  · cases ht : env.transcode with
    | none =>
      have hds := downloadSong_allOk song outputDir env hfo ht
      have hpn : progressNums (downloadSong song outputDir env).1 =
          (List.replicate (numAtt env maxRetries 1) 0 ++ [50]) ++ [100] := by
        rw [hds, progressNums_append, progressNums_append, progressNums_fetchLoop song env]
        simp [progressNums, progressEv]
      refine ⟨?_, ?_, ?_⟩
      · rw [hpn, List.dropLast_concat]
        exact chain'_le_replicate_zero_append _ [50] (List.chain'_singleton 50)
      · intro _
        rw [hpn, List.append_assoc]
        exact chain'_le_replicate_zero_append _ ([50] ++ [100])
          (List.chain'_pair.mpr (by omega))
      · intro hfail
        rw [hds] at hfail
        exact absurd hfail (by simp)
    | some err =>
      have hds := downloadSong_transcodeError song outputDir env err hfo ht
      have hpn : progressNums (downloadSong song outputDir env).1 =
          (List.replicate (numAtt env maxRetries 1) 0 ++ [50]) ++ [0] := by
        rw [hds, progressNums_append, progressNums_append, progressNums_fetchLoop song env]
        simp [progressNums, progressEv]
      refine ⟨?_, ?_, ?_⟩
      · rw [hpn, List.dropLast_concat]
        exact chain'_le_replicate_zero_append _ [50] (List.chain'_singleton 50)
      · intro hsucc
        rw [hds] at hsucc
        exact absurd hsucc (by simp)
      · intro _
        rw [hpn, List.getLast?_concat]

/-- Witness for the amended C5: a concrete successful run has a
non-decreasing progress sequence. -/
theorem downloadSong_progress_monotone_witness :
    List.Chain' (· ≤ ·) (progressNums (downloadSong sampleSong "downloads" envFetchOk).1) :=
  (downloadSong_progress_monotone_except_final_failure sampleSong "downloads" envFetchOk).2.1 rfl

/-- Every unfolding of the retry loop begins with a connectivity wait. -/
theorem fetchLoop_head (song : Song) (env : JobEnv) (f a : Nat) :
    ((fetchLoop song env (f + 1) a).1).head? = some Ev.waitConn := by
  cases h : env.fetch a with
  | none => simp [fetchLoop, h]
  | some msg =>
    by_cases hn : (isNetworkError msg && decide (a < maxRetries)) = true
    · simp [fetchLoop, h, hn]
    · rw [Bool.not_eq_true] at hn
      simp [fetchLoop, h, hn]

theorem connOk_fetchLoop (song : Song) (env : JobEnv) :
    ∀ fuel a (rest : List Ev) b, (∀ b', connOk rest b' = true) →
      connOk ((fetchLoop song env fuel a).1 ++ rest) b = true := by
  intro fuel
  induction fuel with
  | zero =>
    intro a rest b hrest
    simpa [fetchLoop] using hrest b
  | succ f ih =>
    intro a rest b hrest
    cases h : env.fetch a with
    | none => simp [fetchLoop, h, connOk, hrest false]
    | some msg =>
      by_cases hn : (isNetworkError msg && decide (a < maxRetries)) = true
      · have hrec := ih (a + 1) rest true hrest
        simp only [fetchLoop, h, hn, if_true, List.cons_append, List.append_assoc,
          List.nil_append, connOk]
        simpa [connOk] using hrec
      · rw [Bool.not_eq_true] at hn
        simp [fetchLoop, h, hn, connOk, hrest false]

/-- The job trace is the retry-loop trace followed by progress events
only. -/
theorem downloadSong_trace_shape (song : Song) (outputDir : String) (env : JobEnv) :
    ∃ tail, (downloadSong song outputDir env).1 = (fetchLoop song env maxRetries 1).1 ++ tail ∧
      (∀ b, connOk tail b = true) := by
  rcases hfo : fetchOutcome env maxRetries 1 with msg | u
  · exact ⟨[Ev.progress (progressEv song DStatus.failed 0 (some msg))],
      by rw [downloadSong_fetchError song outputDir env msg hfo], fun b => rfl⟩
  · cases ht : env.transcode with
    | none =>
      refine ⟨[Ev.progress (progressEv song DStatus.converting 50 none),
        Ev.progress (progressEv song DStatus.completed 100 none)], ?_, fun b => rfl⟩
      rw [downloadSong_allOk song outputDir env hfo ht, List.append_assoc]
      rfl
    | some err =>
      refine ⟨[Ev.progress (progressEv song DStatus.converting 50 none),
        Ev.progress (progressEv song DStatus.failed 0 (some err))], ?_, fun b => rfl⟩
      rw [downloadSong_transcodeError song outputDir env err hfo ht, List.append_assoc]
      rfl

/-- C6: in every execution of `downloadSong`, every invocation of the
external fetch tool is preceded by a completed connectivity wait since
the previous invocation (the `connOk` scan starting with no wait
completed succeeds), and the very first event of a job is a connectivity
wait — so a job started while offline waits rather than failing. -/
theorem downloadSong_waits_before_every_fetch (song : Song) (outputDir : String)
    (env : JobEnv) :
    connOk (downloadSong song outputDir env).1 false = true ∧
    (downloadSong song outputDir env).1.head? = some Ev.waitConn := by
  obtain ⟨tail, htr, htail⟩ := downloadSong_trace_shape song outputDir env
  have hhead : ((fetchLoop song env maxRetries 1).1).head? = some Ev.waitConn := by
    have hm : maxRetries = 3 + 1 := rfl
    rw [hm]
    exact fetchLoop_head song env 3 1
  constructor
  · rw [htr]
    exact connOk_fetchLoop song env maxRetries 1 tail false htail
  · rw [htr]
    cases hl : (fetchLoop song env maxRetries 1).1 with
    | nil => rw [hl] at hhead; simp at hhead
    | cons x t =>
      rw [hl] at hhead
      simp only [List.head?_cons, Option.some.injEq] at hhead
      simp [hhead]

/-! ## Lemmas about the scheduler -/

theorem downloadSong_song_eq (song : Song) (outputDir : String) (env : JobEnv) :
    (downloadSong song outputDir env).2.song = song := by
  rcases hfo : fetchOutcome env maxRetries 1 with msg | u
  · rw [downloadSong_fetchError song outputDir env msg hfo]
  · cases ht : env.transcode with
    | none => rw [downloadSong_allOk song outputDir env hfo ht]
    | some err => rw [downloadSong_transcodeError song outputDir env err hfo ht]

theorem perm_get_cons_eraseIdx {α : Type} :
    ∀ (l : List α) (i : Nat) (h : i < l.length), (l.get ⟨i, h⟩ :: l.eraseIdx i).Perm l := by
  intro l
  induction l with
  | nil => intro i h; simp at h
  | cons x t ih =>
    intro i h
    cases i with
    | zero => simp [List.eraseIdx]
    | succ j =>
      have hj : j < t.length := by simpa using h
      have hswap : ((x :: t).get ⟨j + 1, h⟩ :: (x :: t).eraseIdx (j + 1)).Perm
          (x :: t.get ⟨j, hj⟩ :: t.eraseIdx j) := by
        simp [List.eraseIdx]
        exact List.Perm.swap x (t.get ⟨j, hj⟩) (t.eraseIdx j)
      exact hswap.trans ((ih j hj).cons x)

theorem fillGo_spec (c : Nat) :
    ∀ (p act : List Song), act.length ≤ c →
      ((fillGo c p act).1 ++ (fillGo c p act).2).Perm (p ++ act) ∧
      (fillGo c p act).2.length ≤ c ∧
      ((fillGo c p act).1 ≠ [] → (fillGo c p act).2.length = c) := by
  intro p
  induction p with
  | nil =>
    intro act hact
    refine ⟨by simp [fillGo], by simpa [fillGo] using hact, by simp [fillGo]⟩
  | cons s rest ih =>
    intro act hact
    by_cases hlt : act.length < c
    · have hrec := ih (act ++ [s]) (by simp; omega)
      simp only [fillGo]
      rw [if_pos hlt]
      refine ⟨?_, hrec.2.1, hrec.2.2⟩
      refine hrec.1.trans ?_
      have h1 : rest ++ (act ++ [s]) = (rest ++ act) ++ [s] := by
        rw [List.append_assoc]
      rw [h1]
      exact (List.perm_append_singleton s (rest ++ act)).trans (List.Perm.refl _)
    · simp only [fillGo]
      rw [if_neg hlt]
      refine ⟨List.Perm.refl _, ?_, fun _ => ?_⟩
      · show act.length ≤ c
        exact hact
      · show act.length = c
        omega

theorem fill_inv {c : Nat} {outputDir : String} {env : Song → JobEnv} {songs : List Song}
    {st : SchedState}
    (hperm : (st.pending ++ st.active ++ st.results.map DownloadResult.song).Perm songs)
    (hres : ∀ r ∈ st.results, r = (downloadSong r.song outputDir (env r.song)).2)
    (hlen : st.active.length ≤ c) :
    SchedInv c outputDir env songs (fill c st) := by
  obtain ⟨hp, hle, hfull⟩ := fillGo_spec c st.pending st.active hlen
  refine ⟨?_, hres, hle, hfull⟩
  exact (hp.append_right (st.results.map DownloadResult.song)).trans hperm

theorem perm_step {α : Type} (P E M S A : List α) (s : α)
    (hact : (s :: E).Perm A) (hperm : ((P ++ A) ++ M).Perm S) :
    ((P ++ E) ++ (M ++ [s])).Perm S := by
  have h1 : ((P ++ E) ++ (M ++ [s])).Perm ((P ++ E) ++ (s :: M)) :=
    List.Perm.append_left (P ++ E) (List.perm_append_singleton s M)
  have h2 : ((P ++ E) ++ (s :: M)).Perm ((s :: (P ++ E)) ++ M) := by
    have he : (P ++ E) ++ (s :: M) = ((P ++ E) ++ [s]) ++ M := by simp
    rw [he]
    exact List.Perm.append_right M (List.perm_append_singleton s (P ++ E))
  have h3 : (s :: (P ++ E)).Perm (P ++ A) :=
    (List.perm_middle.symm).trans (List.Perm.append_left P hact)
  exact (h1.trans h2).trans ((h3.append_right M).trans hperm)

theorem stepFinish_inv {c : Nat} {outputDir : String} {env : Song → JobEnv}
    {songs : List Song} {st : SchedState} (i : Nat)
    (hinv : SchedInv c outputDir env songs st) :
    SchedInv c outputDir env songs (stepFinish c outputDir env st i) := by
  obtain ⟨hperm, hres, hlen, hfull⟩ := hinv
  unfold stepFinish
  split
  case isTrue h =>
    apply fill_inv
    · show ((st.pending ++ st.active.eraseIdx i) ++
          ((st.results ++ [(downloadSong (st.active.get ⟨i, h⟩) outputDir
            (env (st.active.get ⟨i, h⟩))).2]).map DownloadResult.song)).Perm songs
      rw [List.map_append]
      have hsong : ([(downloadSong (st.active.get ⟨i, h⟩) outputDir
          (env (st.active.get ⟨i, h⟩))).2].map DownloadResult.song) =
          [st.active.get ⟨i, h⟩] := by
        simp [downloadSong_song_eq]
      rw [hsong]
      exact perm_step st.pending (st.active.eraseIdx i)
        (st.results.map DownloadResult.song) songs st.active (st.active.get ⟨i, h⟩)
        (perm_get_cons_eraseIdx st.active i h) hperm
    · show ∀ r ∈ st.results ++ [(downloadSong (st.active.get ⟨i, h⟩) outputDir
          (env (st.active.get ⟨i, h⟩))).2],
        r = (downloadSong r.song outputDir (env r.song)).2
      intro r hr
      rcases List.mem_append.mp hr with hold | hnew
      · exact hres r hold
      · have hr' : r = (downloadSong (st.active.get ⟨i, h⟩) outputDir
            (env (st.active.get ⟨i, h⟩))).2 := by simpa using hnew
        have hs : r.song = st.active.get ⟨i, h⟩ := by
          rw [hr']
          exact downloadSong_song_eq _ _ _
        rw [hs]
        exact hr'
    · show (st.active.eraseIdx i).length ≤ c
      have := List.length_eraseIdx_add_one h
      omega
  case isFalse h =>
    exact ⟨hperm, hres, hlen, hfull⟩

theorem initSched_inv (c : Nat) (outputDir : String) (env : Song → JobEnv)
    (songs : List Song) :
    SchedInv c outputDir env songs (initSched c songs) := by
  apply fill_inv <;> simp

theorem runSched_inv (c : Nat) (outputDir : String) (env : Song → JobEnv)
    (songs : List Song) (choices : List Nat) :
    SchedInv c outputDir env songs (runSched c outputDir env songs choices) := by
  have h : ∀ (cs : List Nat) (st : SchedState), SchedInv c outputDir env songs st →
      SchedInv c outputDir env songs (cs.foldl (stepFinish c outputDir env) st) := by
    intro cs
    induction cs with
    | nil => intro st hst; simpa using hst
    | cons i t ih =>
      intro st hst
      rw [List.foldl_cons]
      exact ih _ (stepFinish_inv i hst)
  exact h choices _ (initSched_inv c outputDir env songs)

/-- C2: when a `downloadSongs` run drains the queue (no pending and no
active jobs remain), it has produced exactly one result per input song,
the multiset of originating songs of the results is exactly the batch
(each input item appears in exactly one result, none dropped), and every
result is the pipeline's result for its own song — regardless of the
concurrency option, of the jobs' completion order, and of how many jobs
failed. -/
theorem downloadSongs_returns_all_items (songs : List Song) (copt : Option Nat)
    (outputDir : String) (env : Song → JobEnv) (choices : List Nat)
    (hp : (downloadSongsRun songs copt outputDir env choices).pending = [])
    (ha : (downloadSongsRun songs copt outputDir env choices).active = []) :
    (downloadSongsRun songs copt outputDir env choices).results.length = songs.length ∧
    ((downloadSongsRun songs copt outputDir env choices).results.map
      DownloadResult.song).Perm songs ∧
    ∀ r ∈ (downloadSongsRun songs copt outputDir env choices).results,
      r = (downloadSong r.song outputDir (env r.song)).2 := by
  unfold downloadSongsRun at hp ha ⊢
  obtain ⟨hperm, hres, -, -⟩ := runSched_inv (effectiveConcurrency copt) outputDir env
    songs choices
  rw [hp, ha] at hperm
  simp only [List.nil_append] at hperm
  refine ⟨?_, hperm, hres⟩
  have hlen := hperm.length_eq
  simpa using hlen

/-- Witness for C2: a concrete one-song batch run to completion yields
exactly one result, attributed to the input song. -/
theorem downloadSongs_returns_all_items_witness :
    (downloadSongsRun [sampleSong] none "downloads" (fun _ => envFetchOk) [0]).results.length =
      [sampleSong].length ∧
    ((downloadSongsRun [sampleSong] none "downloads" (fun _ => envFetchOk) [0]).results.map
      DownloadResult.song).Perm [sampleSong] := by
  have h := downloadSongs_returns_all_items [sampleSong] none "downloads"
    (fun _ => envFetchOk) [0] rfl rfl
  exact ⟨h.1, h.2.1⟩

/-- C3 counterexample: `downloadSongs` called with an empty batch resolves
with the empty result list — a degenerate success, not a rejection with an
"empty batch" error. -/
theorem downloadSongs_empty_batch_is_ok :
    downloadSongsReturn [] none "downloads" (fun _ => envFetchOk) [] =
      Except.ok [] := rfl

/-- C3 amended: `downloadSongs` performs no emptiness check: on an empty
batch it schedules no worker and resolves with an empty result list
(a degenerate success) rather than rejecting. (The distinct error for an
empty playlist is raised upstream by the playlist fetcher, before
`downloadSongs` is called.) -/
theorem downloadSongs_empty_batch_returns_empty (copt : Option Nat) (outputDir : String)
    (env : Song → JobEnv) (choices : List Nat) :
    downloadSongsRun [] copt outputDir env choices =
      { pending := [], active := [], results := [] } ∧
    downloadSongsReturn [] copt outputDir env choices = Except.ok [] := by
  have hrun : ∀ (cs : List Nat) (st : SchedState),
      st = { pending := [], active := [], results := [] } →
      cs.foldl (stepFinish (effectiveConcurrency copt) outputDir env) st =
        { pending := [], active := [], results := [] } := by
    intro cs
    induction cs with
    | nil => intro st h; simpa using h
    | cons i t ih =>
      intro st h
      subst h
      rw [List.foldl_cons]
      apply ih
      simp [stepFinish]
  have h0 : downloadSongsRun [] copt outputDir env choices =
      { pending := [], active := [], results := [] } := by
    unfold downloadSongsRun runSched
    apply hrun
    rfl
  refine ⟨h0, ?_⟩
  unfold downloadSongsReturn
  rw [h0]

/-- C8: with any concurrency setting `c ≥ 1` (the destructuring default
being 5 when the option is omitted), at no point of a `downloadSongs` run
do more than `c` jobs run simultaneously, and no worker slot is ever left
free while items are still queued — as soon as a job reaches a terminal
state, the next queued item is admitted. -/
theorem downloadSongs_bounded_concurrency (songs : List Song) (copt : Option Nat)
    (outputDir : String) (env : Song → JobEnv) (choices : List Nat)
    (hc : 1 ≤ effectiveConcurrency copt) :
    (downloadSongsRun songs copt outputDir env choices).active.length ≤
      effectiveConcurrency copt ∧
    ((downloadSongsRun songs copt outputDir env choices).pending ≠ [] →
      (downloadSongsRun songs copt outputDir env choices).active.length =
        effectiveConcurrency copt) ∧
    effectiveConcurrency none = 5 := by
  clear hc
  unfold downloadSongsRun
  obtain ⟨-, -, hlen, hfull⟩ := runSched_inv (effectiveConcurrency copt) outputDir env
    songs choices
  exact ⟨hlen, hfull, rfl⟩

/-- Witness for C8: a concrete two-song batch with concurrency 1 keeps at
most one job active. -/
theorem downloadSongs_bounded_concurrency_witness :
    (downloadSongsRun [sampleSong, sampleSong2] (some 1) "downloads"
      (fun _ => envFetchOk) []).active.length ≤ effectiveConcurrency (some 1) :=
  (downloadSongs_bounded_concurrency [sampleSong, sampleSong2] (some 1) "downloads"
    (fun _ => envFetchOk) [] (by decide)).1

end YTPD
